import Mathlib

/-!
Verification of the crawler's pure core against its specification.

The development shallowly embeds the repository's TypeScript sources:
`src/crawlee/src/utils.ts` (platform detection, text cleaning, cookie
parsing), the per-platform extraction strategies
(`zhihu.ts`, `twitter.ts`, `xiaohongshu.ts`, the wechat and generic
crawlers) and the orchestration logic of `BaseCrawler.crawl`.
DOM access, navigation and regex scanning over page markup are external
effects; a "page" is embedded as the record of strings those scans
produce, and every filter, transform, deduplication and cap applied to
them is translated from the source.
-/

namespace Crawler

/-! ### JavaScript string primitives -/

/-- Whitespace class of the JavaScript regex `\s` (core characters). -/
def jsIsSpace (c : Char) : Bool :=
  c = ' ' || c = '\t' || c = '\n' || c = '\r' || c = '\x0b' || c = '\x0c'

/-- Model of `String.prototype.trim`: drop whitespace from both ends. -/
def jsTrimL (l : List Char) : List Char :=
  ((l.dropWhile jsIsSpace).reverse.dropWhile jsIsSpace).reverse

/-- Model of `s.trim()`. -/
def jsTrim (s : String) : String :=
  (jsTrimL s.data).asString

/-- Check whether `l` starts with `pat` (model of `startsWith`). -/
def beginsWith : List Char → List Char → Bool
  | _, [] => true
  | [], _ :: _ => false
  | c :: cs, p :: ps => c = p && beginsWith cs ps

/-- Model of `s.startsWith(pre)`. -/
def strStartsWith (s pre : String) : Bool :=
  beginsWith s.data pre.data

/-- Check whether `pat` occurs as a contiguous subsequence of `l`
(model of `String.prototype.includes`). -/
def containsSub : List Char → List Char → Bool
  | [], pat => beginsWith [] pat
  | c :: t, pat => beginsWith (c :: t) pat || containsSub t pat

/-- Model of `s.includes(sub)`. -/
def strIncludes (s sub : String) : Bool :=
  containsSub s.data sub.data

/-- Model of `s.toLowerCase()`. -/
def strToLower (s : String) : String :=
  (s.data.map Char.toLower).asString

/-- Model of `Array.prototype.includes` on arrays of strings. -/
def jsIncludes (l : List String) (s : String) : Bool :=
  decide (s ∈ l)

/-- Split a character list at every occurrence of the separator `c`,
accumulator style (model of `String.prototype.split` with a
one-character separator). -/
def splitCharAux (c : Char) : List Char → List Char → List (List Char)
  | [], acc => [acc.reverse]
  | x :: xs, acc =>
    if x = c then acc.reverse :: splitCharAux c xs []
    else splitCharAux c xs (x :: acc)

/-- Model of `s.split(c)` for a one-character separator. -/
def jsSplit (s : String) (c : Char) : List String :=
  (splitCharAux c s.data []).map List.asString

/-- Model of `s.split(c)[0]`. -/
def jsSplitFirst (s : String) (c : Char) : String :=
  (jsSplit s c).headD ""

/-- Model of `s.slice(0, n)`. -/
def jsTake (s : String) (n : Nat) : String :=
  (s.data.take n).asString

/-- Model of the string fallback idiom `a || b` (empty strings are falsy). -/
def jsOrStr (a b : String) : String :=
  if a = "" then b else a

/-- Replace the first occurrence of `pat` by `rep`
(model of `s.replace(pat, rep)` with a plain-string pattern). -/
def replaceFirstL (pat rep : List Char) : List Char → List Char
  | [] => []
  | c :: cs =>
    if beginsWith (c :: cs) pat then rep ++ (c :: cs).drop pat.length
    else c :: replaceFirstL pat rep cs

/-- Model of `s.replace(pat, rep)` replacing the first occurrence. -/
def replaceFirst (s pat rep : String) : String :=
  (replaceFirstL pat.data rep.data s.data).asString

/-- Replace every occurrence of `pat` by `rep`
(model of a `/g` regex replace with a literal pattern). -/
def replaceAllL (pat rep : List Char) : List Char → List Char
  | [] => []
  | c :: cs =>
    if pat.isEmpty then c :: cs
    else if beginsWith (c :: cs) pat then
      rep ++ replaceAllL pat rep (cs.drop (pat.length - 1))
    else c :: replaceAllL pat rep cs
termination_by l => l.length
decreasing_by
  · simp only [List.length_cons]
    exact Nat.lt_succ_of_le (by simp)
  · simp [Nat.lt_succ_self]

/-- Model of the media-URL unescaping chain
`.replace(/\\u002F/g, '/').replace(/\\\//g, '/')` used by the strategies. -/
def unescapeSlashes (s : String) : String :=
  (replaceAllL "\\/".data "/".data (replaceAllL "\\u002F".data "/".data s.data)).asString

/-- Remove every occurrence of character `c` (model of `replace(/c/g, '')`). -/
def removeChar (c : Char) (s : String) : String :=
  (s.data.filter (fun x => x ≠ c)).asString

/-! ### Text normalizer (`cleanText`, utils.ts lines 16-21) -/

/-- First substitution of `cleanText`: `replace(/\s+/g, ' ')`.
The flag records whether the previous character was inside a
whitespace run that has already emitted its single space. -/
def collapseAux : Bool → List Char → List Char
  | _, [] => []
  | inRun, c :: cs =>
    if jsIsSpace c then
      if inRun then collapseAux true cs else ' ' :: collapseAux true cs
    else c :: collapseAux false cs

/-- Model of `text.replace(/\s+/g, ' ')`. -/
def collapseWS (l : List Char) : List Char :=
  collapseAux false l

/-- Greedy-with-backtracking match of the regex fragment `\s*\n` at the
front of the list: returns the remainder after the last newline inside
the leading whitespace run, when one exists. -/
def blankMatch : List Char → Option (List Char)
  | [] => none
  | c :: cs =>
    if jsIsSpace c then
      match blankMatch cs with
      | some rest => some rest
      | none => if c = '\n' then some cs else none
    else none

/-- Length bound used for the termination of `rmBlank`. -/
theorem blankMatch_length_lt :
    ∀ l rest, blankMatch l = some rest → rest.length < l.length := by
  intro l
  induction l with
  | nil => intro rest h; simp [blankMatch] at h
  | cons c cs ih =>
    intro rest h
    simp only [blankMatch] at h
    by_cases hs : jsIsSpace c
    · simp only [hs, if_true] at h
      cases hm : blankMatch cs with
      | some r0 =>
        rw [hm] at h
        cases h
        exact Nat.lt_succ_of_lt (ih _ hm)
      | none =>
        rw [hm] at h
        by_cases hn : c = '\n'
        · simp only [hn, if_true] at h
          cases h
          exact Nat.lt_succ_self _
        · simp [hn] at h
    · simp [hs] at h

/-- Second substitution of `cleanText`, fuelled recursion: scanning
continues after each replaced match. The fuel makes the recursion
structural; by `blankMatch_length_lt` every step consumes at least one
character, so fuel equal to the list length never runs out. -/
def rmBlankGo : Nat → List Char → List Char
  | 0, l => l
  | _ + 1, [] => []
  | fuel + 1, c :: cs =>
    if c = '\n' then
      match blankMatch cs with
      | some rest => '\n' :: rmBlankGo fuel rest
      | none => c :: rmBlankGo fuel cs
    else c :: rmBlankGo fuel cs

/-- Model of `text.replace(/\n\s*\n/g, '\n')`. -/
def rmBlank (l : List Char) : List Char :=
  rmBlankGo l.length l

/-- Model of `cleanText` from utils.ts: collapse whitespace runs,
apply the blank-line substitution, then trim. -/
def cleanText (s : String) : String :=
  (jsTrimL (rmBlank (collapseWS s.data))).asString

/-! ### Platform classifier (`detectPlatform`, utils.ts lines 4-13) -/

/-- Closed platform tag set from `types.ts`. -/
inductive Platform where
  | zhihu | xiaohongshu | twitter | wechat | unknown
deriving DecidableEq, Repr

/-- Model of `detectPlatform` applied to the (already parsed) hostname:
lowercase the host, then match the fixed ordered signature list by
substring, first match winning. -/
def detectPlatformHost (host : String) : Platform :=
  let h := strToLower host
  if strIncludes h "zhihu.com" then .zhihu
  else if strIncludes h "xiaohongshu.com" || strIncludes h "xhslink.com" then .xiaohongshu
  else if strIncludes h "twitter.com" || strIncludes h "x.com" then .twitter
  else if strIncludes h "weixin.qq.com" || strIncludes h "mp.weixin.qq.com" then .wechat
  else .unknown

/-- Classifier written from the words of the specification for
comparison: lowercased host matched against the spec's ordered
signature list (zhihu.com; xiaohongshu.com or xhslink.com; twitter.com
or x.com; weixin.qq.com), first match winning, otherwise unknown. -/
def claimPlatformSpec (host : String) : Platform :=
  let h := strToLower host
  if strIncludes h "zhihu.com" then .zhihu
  else if strIncludes h "xiaohongshu.com" || strIncludes h "xhslink.com" then .xiaohongshu
  else if strIncludes h "twitter.com" || strIncludes h "x.com" then .twitter
  else if strIncludes h "weixin.qq.com" then .wechat
  else .unknown

/-! ### Cookie normalizer (`parseCookies`, utils.ts lines 29-46) -/

/-- Cookie record from `types.ts` (`CookieParam`). -/
structure CookieParam where
  name : String
  value : String
  domain : Option String := none
  path : Option String := none
deriving DecidableEq, Repr

/-- Argument union `CookieParam[] | string` of `parseCookies`. -/
inductive CookiesArg where
  | arr (l : List CookieParam)
  | str (s : String)
deriving DecidableEq, Repr

/-- Model of the JS fallback `c.domain || domain` (undefined or empty
domains fall back). -/
def jsOrDomain (o : Option String) (d : String) : String :=
  match o with
  | none => d
  | some s => if s = "" then d else s

/-- Model of `parseCookies` from utils.ts: absent input gives `[]`; a
list is passed through with `domain: c.domain || domain`; a string is
split on `;`, each pair trimmed and split on `=` with the tail of the
split rejoined as the value, and entries with empty name or value are
filtered out. -/
def parseCookies (cookies : Option CookiesArg) (domain : String) : List CookieParam :=
  match cookies with
  | none => []
  | some (.arr l) =>
    l.map (fun c => { c with domain := some (jsOrDomain c.domain domain) })
  | some (.str s) =>
    ((jsSplit s ';').map (fun pair =>
      let parts := jsSplit (jsTrim pair) '='
      let name := jsTrim (parts.headD "")
      let value := jsTrim (String.intercalate "=" parts.tail)
      ({ name := name, value := value, domain := some domain } : CookieParam))).filter
      (fun c => c.name ≠ "" && c.value ≠ "")

/-! ### Media extraction (per-platform strategies)

Each strategy scans the page for candidate media URLs: attribute reads
on `video`/`source`/`img` elements and regex matches over the page
markup. Those scans are external DOM effects; a page is embedded as the
lists of strings they yield, and the filters, transforms, dedup checks
and caps applied to the candidates are translated from the source. -/

/-- Guarded push shared by the video collectors: `if (valid(src) &&
!vids.includes(src)) vids.push(src)`. -/
def pushIf (valid : String → Bool) (acc : List String) (s : String) : List String :=
  if valid s && !jsIncludes acc s then acc ++ [s] else acc

/-- Model of `[...new Set(xs)]`: first-occurrence-order deduplication. -/
def jsSetDedup (l : List String) : List String :=
  l.foldl (fun acc s => if jsIncludes acc s then acc else acc ++ [s]) []

/-- Truthiness test used by `.filter(Boolean)` on strings. -/
def strTruthy (s : String) : Bool := s ≠ ""

/-- Zhihu `extractVideos` (zhihu.ts lines 34-74): push every non-empty
candidate from the tag/attribute scans and every unescaped regex match,
then `[...new Set(videos)].slice(0, 10)`. -/
def zhihuVideos (attrSrcs patternMatches : List String) : List String :=
  let raw := attrSrcs.filter strTruthy ++ (patternMatches.map unescapeSlashes).filter strTruthy
  (jsSetDedup raw).take 10

/-- Zhihu `extractArticle` image extraction (zhihu.ts lines 92-95):
`imgs.map(img => src || data-original || '').filter(Boolean)` with no
deduplication and no cap. -/
def zhihuArticleImages (attrs : List (Option String × Option String)) : List String :=
  (attrs.map (fun p => jsOrStr (p.1.getD "") (p.2.getD ""))).filter strTruthy

/-- Twitter image extraction (twitter.ts lines 29-32):
`imgs.map(img => src || '').filter(Boolean)` with no deduplication and
no cap. -/
def twitterImages (srcs : List (Option String)) : List String :=
  (srcs.map (fun o => o.getD "")).filter strTruthy

/-- Twitter `isValidVideo` (twitter.ts lines 39-42). -/
def twitterValidVideo (u : String) : Bool :=
  u ≠ "" && !strStartsWith u "blob:" &&
    (strIncludes u "video.twimg.com" || strIncludes u ".mp4")

/-- Twitter video extraction (twitter.ts lines 35-77): guarded pushes
over the tag, source and regex-match candidates, then `slice(0, 10)`. -/
def twitterVideos (tagSrcs sourceSrcs patternMatches : List String) : List String :=
  let v1 := tagSrcs.foldl (pushIf twitterValidVideo) []
  let v2 := sourceSrcs.foldl (pushIf twitterValidVideo) v1
  let v3 := patternMatches.foldl
    (fun acc m => pushIf twitterValidVideo acc (unescapeSlashes m)) v2
  v3.take 10

/-- Wechat image extraction (wechat crawler): `imgs.map(img =>
data-src || src || '').filter(Boolean)` then `[...new Set(images)]`
with no cap. -/
def wechatImages (attrs : List (Option String × Option String)) : List String :=
  jsSetDedup ((attrs.map (fun p => jsOrStr (p.1.getD "") (p.2.getD ""))).filter strTruthy)

/-- Wechat iframe condition: `src && (src.includes('video') ||
src.includes('v.qq.com'))`. -/
def wechatIframeCond (s : String) : Bool :=
  s ≠ "" && (strIncludes s "video" || strIncludes s "v.qq.com")

/-- Wechat video extraction: guarded pushes over the video-tag, source,
iframe, mpvideo and regex-match candidates, then `slice(0, 10)`. -/
def wechatVideos (tagSrcs sourceSrcs iframeSrcs vidtypeSrcs patternMatches : List String) :
    List String :=
  let v1 := tagSrcs.foldl (pushIf strTruthy) []
  let v2 := sourceSrcs.foldl (pushIf strTruthy) v1
  let v3 := iframeSrcs.foldl (pushIf wechatIframeCond) v2
  let v4 := vidtypeSrcs.foldl (pushIf strTruthy) v3
  let v5 := patternMatches.foldl (fun acc m => pushIf strTruthy acc (unescapeSlashes m)) v4
  v5.take 10

/-- Xiaohongshu image-source condition (xiaohongshu.ts lines 92-98). -/
def xhsImgCond (s : String) : Bool :=
  strIncludes s "xhscdn.com" &&
    (strIncludes s "webpic" || strIncludes s "sns-webpic") &&
    !strIncludes s "avatar" && !strIncludes s "icon" && !strIncludes s "logo" &&
    !strIncludes s ".js" && !strIncludes s "fe-static"

/-- Xiaohongshu image extraction (xiaohongshu.ts lines 84-131): filter
the `img` sources, strip query strings, dedup-push; then for every JSON
match strip quotes, unescape, strip the query string and dedup-push
under the avatar/.js exclusions; finally `slice(0, 20)`. -/
def xhsImages (imgSrcs jsonMatches : List String) : List String :=
  let step1 := imgSrcs.foldl (fun acc src =>
    if xhsImgCond src then
      let c := jsSplitFirst src '?'
      if jsIncludes acc c then acc else acc ++ [c]
    else acc) []
  let step2 := jsonMatches.foldl (fun acc m =>
    let url := jsSplitFirst (unescapeSlashes (removeChar '\x22' m)) '?'
    if url ≠ "" && !jsIncludes acc url && !strIncludes url "avatar" && !strIncludes url ".js"
    then acc ++ [url] else acc) step1
  step2.take 20

/-- Xiaohongshu `isValidVideo` (xiaohongshu.ts lines 138-141). -/
def xhsValidVideo (u : String) : Bool :=
  u ≠ "" && !strStartsWith u "blob:" &&
    (strIncludes u "sns-video" || strIncludes u ".mp4" || strIncludes u "stream")

/-- Xiaohongshu video extraction (xiaohongshu.ts lines 134-178):
guarded pushes over the tag and source candidates; regex matches are
unescaped and protocol-relative URLs prefixed with `https:` before the
guarded push; finally `slice(0, 10)`. -/
def xhsVideos (tagSrcs sourceSrcs patternMatches : List String) : List String :=
  let v1 := tagSrcs.foldl (pushIf xhsValidVideo) []
  let v2 := sourceSrcs.foldl (pushIf xhsValidVideo) v1
  let v3 := patternMatches.foldl (fun acc m =>
    let u0 := unescapeSlashes m
    let u := if strStartsWith u0 "//" then "https:" ++ u0 else u0
    pushIf xhsValidVideo acc u) v2
  v3.take 10

/-- Generic image extraction (generic crawler): `imgs.map(src || '')
.filter(src => src && !src.includes('data:') && src.length < 500)
.slice(0, 20)` with no deduplication. -/
def genericImages (srcs : List (Option String)) : List String :=
  ((srcs.map (fun o => o.getD "")).filter
    (fun s => s ≠ "" && !strIncludes s "data:" && s.length < 500)).take 20

/-- Generic video extraction: guarded pushes of non-empty candidates
from the tag, source and regex-match scans, then `slice(0, 10)`. -/
def genericVideos (tagSrcs sourceSrcs patternMatches : List String) : List String :=
  let v1 := tagSrcs.foldl (pushIf strTruthy) []
  let v2 := sourceSrcs.foldl (pushIf strTruthy) v1
  let v3 := patternMatches.foldl (fun acc m => pushIf strTruthy acc (unescapeSlashes m)) v2
  v3.take 10

/-! ### Generic fallback content selection (GenericCrawler.extract) -/

/-- Fixed priority list of content-container selectors. -/
def contentSelectors : List String :=
  ["article", "main", ".content", ".post-content", ".article-content",
   "#content", ".entry-content"]

/-- Selector loop of `GenericCrawler.extract`: `q` maps a selector to
`some text` when `$eval` succeeds (textContent defaulted to the empty
string) and `none` when it throws. The loop keeps the last successful
text and stops at the first text longer than 100 characters. -/
def selectLoop (q : String → Option String) : List String → String → String
  | [], c => c
  | s :: ss, c =>
    match q s with
    | none => selectLoop q ss c
    | some t => if 100 < t.length then t else selectLoop q ss t

/-- Content produced by the selector loop over the fixed selector list,
starting from the empty string. -/
def genericSelectContent (q : String → Option String) : String :=
  selectLoop q contentSelectors ""

/-- Body fallback of `GenericCrawler.extract`: `if (!content) content =
$eval('body') ...`; `body` is the body text with the `.catch(() => '')`
default already applied. -/
def genericContentBase (q : String → Option String) (body : String) : String :=
  let c := genericSelectContent q
  if c = "" then body else c

/-- Final content field of the generic strategy:
`cleanText(content).slice(0, 10000)`. -/
def genericContentField (q : String → Option String) (body : String) : String :=
  jsTake (cleanText (genericContentBase q body)) 10000

/-- Reference description of the selector loop: if some selector's text
exceeds 100 characters, the first such text is returned; otherwise the
last successfully extracted text (default empty) is kept. -/
def selectSpec (q : String → Option String) (sels : List String) : String :=
  match sels.find? (fun s => match q s with
    | some t => decide (100 < t.length)
    | none => false) with
  | some s => (q s).getD ""
  | none => (sels.filterMap q).getLastD ""

/-! ### Xiaohongshu extraction (XiaohongshuCrawler.extract) -/

/-- Partial crawl result returned by a strategy
(`Partial<CrawlResult>`): absent fields are `none`. -/
structure Extracted where
  title : Option String := none
  author : Option String := none
  content : Option String := none
  images : Option (List String) := none
  videos : Option (List String) := none
  publishedAt : Option String := none
deriving DecidableEq, Repr

/-- Observations the xiaohongshu strategy makes on a loaded page: the
page title, the candidate author-link texts, the hashtag-parent text
(when a hashtag link with a parent element exists), the candidate div
texts, the image/video attribute reads and regex matches, and the raw
publish-time scan result. -/
structure XhsPage where
  pageTitle : String := ""
  authorCandidates : List String := []
  hashtagParent : Option String := none
  divTexts : List String := []
  imgSrcs : List String := []
  imgJsonMatches : List String := []
  videoTagSrcs : List String := []
  videoSourceSrcs : List String := []
  videoPatternMatches : List String := []
  publishedScan : String := ""
deriving DecidableEq, Repr

/-- Author selection (xiaohongshu.ts lines 41-53): the first candidate
link text whose trim is non-empty, longer than 1, shorter than 50, not
the literal self marker and free of `http`. -/
def xhsAuthor (cands : List String) : String :=
  (((cands.map jsTrim).find? (fun t =>
    t ≠ "" && 1 < t.length && t.length < 50 && t ≠ "我" && !strIncludes t "http")).getD "")

/-- Content selection (xiaohongshu.ts lines 56-81): the hashtag-parent
text when present, otherwise the first div text of plausible length
containing a content marker and no footer marker. -/
def xhsContent (hashtagParent : Option String) (divTexts : List String) : String :=
  match hashtagParent with
  | some t => t
  | none =>
    ((divTexts.find? (fun text =>
      50 < text.length && text.length < 5000 &&
      (strIncludes text "#" || strIncludes text "[" || strIncludes text "。") &&
      !strIncludes text "沪ICP备" && !strIncludes text "营业执照")).getD "")

/-- Model of `XiaohongshuCrawler.extract` (xiaohongshu.ts lines 14-217):
a login-wall page title short-circuits to an all-empty partial result;
otherwise the note title is the page title with the site suffix
removed, and the field extractors run. -/
def xhsExtract (p : XhsPage) : Extracted :=
  if strIncludes p.pageTitle "登录" && !strIncludes p.pageTitle " - 小红书" then
    { title := some "", content := some "", images := some [], videos := some [] }
  else
    let title := if strIncludes p.pageTitle " - 小红书"
      then replaceFirst p.pageTitle " - 小红书" "" else ""
    { title := some (cleanText title),
      author := some (cleanText (xhsAuthor p.authorCandidates)),
      content := some (cleanText (xhsContent p.hashtagParent p.divTexts)),
      images := some (xhsImages p.imgSrcs p.imgJsonMatches),
      videos := some (xhsVideos p.videoTagSrcs p.videoSourceSrcs p.videoPatternMatches),
      publishedAt := some (cleanText p.publishedScan) }

/-! ### Crawl session orchestrator (BaseCrawler.crawl, part_001 lines 73-201) -/

/-- Final crawl result (`CrawlResult` from types.ts); `crawledAt` is the
timestamp `nowISO()` produces at resolution, modelled as a number. -/
structure CrawlResult where
  success : Bool
  platform : Platform
  url : String
  title : String
  author : Option String := none
  content : String
  images : List String
  videos : List String
  publishedAt : Option String := none
  crawledAt : Nat
  error : Option String := none
deriving DecidableEq, Repr

/-- Completion signals that can fire for one `crawl` call: the request
handler succeeding or catching an error, the failed-request handler
firing after retries are exhausted, and the `crawler.run(...).finally`
callback. Each carries the `nowISO()` timestamp of the moment it runs. -/
inductive CrawlEvent where
  | handlerSuccess (url : String) (ex : Extracted) (now : Nat)
  | handlerError (url : String) (msg : String) (now : Nat)
  | sessionFailure (url : String) (msg : String) (now : Nat)
  | crawlerFinished (now : Nat)
deriving DecidableEq, Repr

/-- Timestamp carried by a completion signal. -/
def eventTime : CrawlEvent → Nat
  | .handlerSuccess _ _ t => t
  | .handlerError _ _ t => t
  | .sessionFailure _ _ t => t
  | .crawlerFinished t => t

/-- Observable state of one `crawl` call: the `resolved` flag, the
value delivered by the promise (a promise keeps the first value passed
to `resolve`), and how many times `resolve` has been invoked. -/
structure OrchState where
  resolved : Bool
  delivered : Option CrawlResult
  resolveCalls : Nat
deriving DecidableEq, Repr

/-- Promise semantics of `resolve`: the first delivered value wins,
later calls leave it unchanged. -/
def promiseResolve (d : Option CrawlResult) (r : CrawlResult) : Option CrawlResult :=
  match d with
  | none => some r
  | some r0 => some r0

/-- Successful result built by the request handler (part_001 lines
138-149). -/
def mkSuccess (p : Platform) (url : String) (ex : Extracted) (t : Nat) : CrawlResult :=
  { success := true, platform := p, url := url,
    title := ex.title.getD "", author := ex.author,
    content := ex.content.getD "",
    images := ex.images.getD [], videos := ex.videos.getD [],
    publishedAt := ex.publishedAt, crawledAt := t, error := none }

/-- Failed result built by the error paths (part_001 lines 152-162,
169-179 and 187-197). -/
def mkFailure (p : Platform) (url msg : String) (t : Nat) : CrawlResult :=
  { success := false, platform := p, url := url, title := "", author := none,
    content := "", images := [], videos := [], publishedAt := none,
    crawledAt := t, error := some msg }

/-- Result each completion signal would deliver. -/
def eventResult (p : Platform) (url : String) : CrawlEvent → CrawlResult
  | .handlerSuccess u ex t => mkSuccess p u ex t
  | .handlerError u msg t => mkFailure p u msg t
  | .sessionFailure u msg t => mkFailure p u msg t
  | .crawlerFinished t => mkFailure p url "Crawler finished without result" t

/-- One completion signal acting on the orchestrator state, translated
from `crawl`: the request handler's success and error paths set
`resolved` and call `resolve` unconditionally; the failed-request
handler and the `finally` callback first consult `resolved` and do
nothing when it is already set. -/
def step (p : Platform) (url : String) (s : OrchState) (e : CrawlEvent) : OrchState :=
  match e with
  | .handlerSuccess u ex t =>
    { resolved := true,
      delivered := promiseResolve s.delivered (mkSuccess p u ex t),
      resolveCalls := s.resolveCalls + 1 }
  | .handlerError u msg t =>
    { resolved := true,
      delivered := promiseResolve s.delivered (mkFailure p u msg t),
      resolveCalls := s.resolveCalls + 1 }
  | .sessionFailure u msg t =>
    if s.resolved then s
    else
      { resolved := true,
        delivered := promiseResolve s.delivered (mkFailure p u msg t),
        resolveCalls := s.resolveCalls + 1 }
  | .crawlerFinished t =>
    if s.resolved then s
    else
      { resolved := true,
        delivered := promiseResolve s.delivered
          (mkFailure p url "Crawler finished without result" t),
        resolveCalls := s.resolveCalls + 1 }

/-- One `crawl(url, options)` call: starting from an unresolved state,
process the completion signals in the order they fire. -/
def runCrawl (p : Platform) (url : String) (events : List CrawlEvent) : OrchState :=
  events.foldl (step p url) ⟨false, none, 0⟩

/-! ### Orchestrator lemmas -/

/-- Once the promise has delivered a value, no later completion signal
changes it. -/
theorem step_delivered_stable (p : Platform) (u : String) (s : OrchState) (e : CrawlEvent)
    (r : CrawlResult) (h : s.delivered = some r) : (step p u s e).delivered = some r := by
  cases e with
  | handlerSuccess u2 ex t => simp [step, h, promiseResolve]
  | handlerError u2 m t => simp [step, h, promiseResolve]
  | sessionFailure u2 m t => by_cases hr : s.resolved <;> simp [step, hr, h, promiseResolve]
  | crawlerFinished t => by_cases hr : s.resolved <;> simp [step, hr, h, promiseResolve]

/-- Delivered values survive any sequence of later completion signals. -/
theorem foldl_delivered_stable (p : Platform) (u : String) :
    ∀ (es : List CrawlEvent) (s : OrchState) (r : CrawlResult), s.delivered = some r →
      (es.foldl (step p u) s).delivered = some r := by
  intro es
  induction es with
  | nil => intro s r h; simpa using h
  | cons e es ih => intro s r h; exact ih _ _ (step_delivered_stable p u s e r h)

/-- The resolved flag never goes back to false. -/
theorem step_resolved_stable (p : Platform) (u : String) (s : OrchState) (e : CrawlEvent)
    (h : s.resolved = true) : (step p u s e).resolved = true := by
  cases e with
  | handlerSuccess u2 ex t => simp [step]
  | handlerError u2 m t => simp [step]
  | sessionFailure u2 m t => simp [step, h]
  | crawlerFinished t => simp [step, h]

/-- The resolved flag stays set across any later completion signals. -/
theorem foldl_resolved_stable (p : Platform) (u : String) :
    ∀ (es : List CrawlEvent) (s : OrchState), s.resolved = true →
      (es.foldl (step p u) s).resolved = true := by
  intro es
  induction es with
  | nil => intro s h; simpa using h
  | cons e es ih => intro s h; exact ih _ (step_resolved_stable p u s e h)

/-- From the initial state, any completion signal resolves with its own
result and sets the flag. -/
theorem step_init (p : Platform) (u : String) (e : CrawlEvent) :
    (step p u ⟨false, none, 0⟩ e).delivered = some (eventResult p u e) ∧
    (step p u ⟨false, none, 0⟩ e).resolved = true := by
  cases e <;> simp [step, promiseResolve, eventResult]

/-- The first completion signal of a crawl call determines the
delivered result. -/
theorem runCrawl_cons (p : Platform) (u : String) (e : CrawlEvent) (es : List CrawlEvent) :
    (runCrawl p u (e :: es)).delivered = some (eventResult p u e) ∧
    (runCrawl p u (e :: es)).resolved = true := by
  unfold runCrawl
  rw [List.foldl_cons]
  exact ⟨foldl_delivered_stable p u es _ _ (step_init p u e).1,
    foldl_resolved_stable p u es _ (step_init p u e).2⟩

/-! ### Claim theorems: orchestrator -/

/-- C1, counterexample: the claim that the `resolved` flag is consulted
before each resolution fails. After a session failure has resolved the
call (flag set), a later handler-success path is not a no-op: it still
performs a resolution call, because the request handler sets the flag
and calls `resolve` without consulting it; across the two signals
`resolve` is invoked twice. -/
theorem crawl_flag_not_consulted_cex :
    (runCrawl Platform.zhihu "u" [CrawlEvent.sessionFailure "u" "net" 1]).resolved = true ∧
    step Platform.zhihu "u" (runCrawl Platform.zhihu "u" [CrawlEvent.sessionFailure "u" "net" 1])
        (CrawlEvent.handlerSuccess "u" ({} : Extracted) 2) ≠
      runCrawl Platform.zhihu "u" [CrawlEvent.sessionFailure "u" "net" 1] ∧
    (runCrawl Platform.zhihu "u"
      [CrawlEvent.sessionFailure "u" "net" 1,
       CrawlEvent.handlerSuccess "u" ({} : Extracted) 2]).resolveCalls = 2 := by
  decide

/-- C1, amended: `crawl` resolves to exactly one `CrawlResult` — the
one built by whichever completion signal fires first — and never
throws (the embedded step function is total). The flag is consulted
before resolution only on the session-failure and crawler-finished
paths; the handler paths resolve unconditionally, but promise
semantics ignore resolutions after the first, so the delivered result
is still unique. -/
theorem crawl_resolves_exactly_once (p : Platform) (u : String) (e : CrawlEvent)
    (es : List CrawlEvent) :
    (runCrawl p u (e :: es)).delivered = some (eventResult p u e) ∧
    (runCrawl p u (e :: es)).resolved = true := by
  exact runCrawl_cons p u e es

/-- C2: whenever the result a crawl delivers has `success = false`, the
`error` field is set, the content fields are empty (empty title and
content, empty image and video lists), and `crawledAt` is the
timestamp of the completion signal that resolved the call — its
completion time, not the crawl's start. The hypothesis covers exactly
the three failure paths: handler error, session failure and
crawler-finished-without-result. -/
theorem crawl_failure_result_shape (p : Platform) (u : String) (e : CrawlEvent)
    (es : List CrawlEvent) (h : (eventResult p u e).success = false) :
    (runCrawl p u (e :: es)).delivered = some (eventResult p u e) ∧
    (eventResult p u e).error.isSome = true ∧
    (eventResult p u e).title = "" ∧ (eventResult p u e).content = "" ∧
    (eventResult p u e).images = [] ∧ (eventResult p u e).videos = [] ∧
    (eventResult p u e).crawledAt = eventTime e := by
  refine ⟨(runCrawl_cons p u e es).1, ?_⟩
  cases e with
  | handlerSuccess u2 ex t => simp [eventResult, mkSuccess] at h
  | handlerError u2 m t => simp [eventResult, mkFailure, eventTime]
  | sessionFailure u2 m t => simp [eventResult, mkFailure, eventTime]
  | crawlerFinished t => simp [eventResult, mkFailure, eventTime]

/-- Witness for `crawl_failure_result_shape` at a concrete session
failure. -/
theorem crawl_failure_result_shape_witness :
    (eventResult Platform.twitter "u" (CrawlEvent.sessionFailure "u" "boom" 9)).success = false ∧
    ((runCrawl Platform.twitter "u" [CrawlEvent.sessionFailure "u" "boom" 9]).delivered =
        some (eventResult Platform.twitter "u" (CrawlEvent.sessionFailure "u" "boom" 9)) ∧
      (eventResult Platform.twitter "u"
        (CrawlEvent.sessionFailure "u" "boom" 9)).error.isSome = true ∧
      (eventResult Platform.twitter "u" (CrawlEvent.sessionFailure "u" "boom" 9)).title = "" ∧
      (eventResult Platform.twitter "u" (CrawlEvent.sessionFailure "u" "boom" 9)).content = "" ∧
      (eventResult Platform.twitter "u" (CrawlEvent.sessionFailure "u" "boom" 9)).images = [] ∧
      (eventResult Platform.twitter "u" (CrawlEvent.sessionFailure "u" "boom" 9)).videos = [] ∧
      (eventResult Platform.twitter "u" (CrawlEvent.sessionFailure "u" "boom" 9)).crawledAt =
        eventTime (CrawlEvent.sessionFailure "u" "boom" 9)) :=
  ⟨by decide, crawl_failure_result_shape Platform.twitter "u" _ [] (by decide)⟩

/-- Page observed behind the xiaohongshu login wall: the page title
advertises login and lacks the site suffix. -/
def xhsLoginPage : XhsPage := { pageTitle := "登录探索更多内容" }

/-- Completion signal of a successful handler run on the login-wall
page. -/
def xhsLoginEvent : CrawlEvent :=
  .handlerSuccess "https://www.xiaohongshu.com/explore/1" (xhsExtract xhsLoginPage) 5

/-- Result `crawl` delivers for the login-wall page. -/
def xhsLoginResult : CrawlResult :=
  eventResult .xiaohongshu "https://www.xiaohongshu.com/explore/1" xhsLoginEvent

/-- C9: `success = true` does not imply any content was extracted — on
a xiaohongshu login-wall page the strategy returns all fields empty and
`crawl` resolves with `success = true`, empty title, content, images
and videos, and no error. -/
theorem xhs_login_wall_success_without_content :
    (runCrawl Platform.xiaohongshu "https://www.xiaohongshu.com/explore/1"
        [xhsLoginEvent]).delivered = some xhsLoginResult ∧
    xhsLoginResult.success = true ∧ xhsLoginResult.title = "" ∧
    xhsLoginResult.content = "" ∧ xhsLoginResult.images = [] ∧
    xhsLoginResult.videos = [] ∧ xhsLoginResult.error = none := by
  decide

/-! ### Media extraction lemmas -/

/-- Folding a step that only ever appends an element not yet present
preserves duplicate-freedom. -/
theorem nodup_foldl_of_step {β : Type _} (f : List String → β → List String)
    (hstep : ∀ acc b, f acc b = acc ∨ ∃ u, u ∉ acc ∧ f acc b = acc ++ [u]) :
    ∀ (l : List β) (acc : List String), acc.Nodup → (l.foldl f acc).Nodup := by
  intro l
  induction l with
  | nil => intro acc h; simpa using h
  | cons b bs ih =>
    intro acc h
    rw [List.foldl_cons]
    rcases hstep acc b with he | ⟨u, hu, he⟩
    · rw [he]; exact ih acc h
    · rw [he]
      refine ih _ ?_
      rw [List.nodup_append]
      refine ⟨h, List.nodup_singleton u, ?_⟩
      intro a ha hb
      rw [List.mem_singleton] at hb
      exact hu (hb ▸ ha)

/-- Guarded pushes only append fresh elements. -/
theorem pushIf_step {β : Type _} (v : String → Bool) (g : β → String) :
    ∀ (acc : List String) (b : β),
      pushIf v acc (g b) = acc ∨ ∃ u, u ∉ acc ∧ pushIf v acc (g b) = acc ++ [u] := by
  intro acc b
  unfold pushIf
  by_cases h : (v (g b) && !jsIncludes acc (g b)) = true
  · rw [if_pos h]
    refine Or.inr ⟨g b, ?_, rfl⟩
    have h2 := ((Bool.and_eq_true _ _).mp h).2
    simpa [jsIncludes] using h2
  · rw [if_neg h]; exact Or.inl rfl

/-- Set-style deduplication only appends fresh elements. -/
theorem dedup_step :
    ∀ (acc : List String) (s : String),
      (if jsIncludes acc s then acc else acc ++ [s]) = acc ∨
      ∃ u, u ∉ acc ∧ (if jsIncludes acc s then acc else acc ++ [s]) = acc ++ [u] := by
  intro acc s
  by_cases h : jsIncludes acc s = true
  · rw [if_pos h]; exact Or.inl rfl
  · rw [if_neg h]
    exact Or.inr ⟨s, by simpa [jsIncludes] using h, rfl⟩

/-- Set-style deduplication produces a duplicate-free list. -/
theorem jsSetDedup_nodup (l : List String) : (jsSetDedup l).Nodup :=
  nodup_foldl_of_step _ dedup_step l [] List.nodup_nil

/-- Step of the xiaohongshu img-element image fold appends only fresh
elements. -/
theorem xhsImages_step1 :
    ∀ (acc : List String) (src : String),
      (if xhsImgCond src then
        (if jsIncludes acc (jsSplitFirst src '?') then acc
         else acc ++ [jsSplitFirst src '?']) else acc) = acc ∨
      ∃ u, u ∉ acc ∧
        (if xhsImgCond src then
          (if jsIncludes acc (jsSplitFirst src '?') then acc
           else acc ++ [jsSplitFirst src '?']) else acc) = acc ++ [u] := by
  intro acc src
  by_cases hc : xhsImgCond src = true
  · rw [if_pos hc]; exact dedup_step acc (jsSplitFirst src '?')
  · rw [if_neg hc]; exact Or.inl rfl

/-- Step of the xiaohongshu JSON-match image fold appends only fresh
elements. -/
theorem xhsImages_step2 :
    ∀ (acc : List String) (m : String),
      (if (jsSplitFirst (unescapeSlashes (removeChar '\x22' m)) '?' ≠ "" &&
           !jsIncludes acc (jsSplitFirst (unescapeSlashes (removeChar '\x22' m)) '?') &&
           !strIncludes (jsSplitFirst (unescapeSlashes (removeChar '\x22' m)) '?') "avatar" &&
           !strIncludes (jsSplitFirst (unescapeSlashes (removeChar '\x22' m)) '?') ".js")
       then acc ++ [jsSplitFirst (unescapeSlashes (removeChar '\x22' m)) '?'] else acc) = acc ∨
      ∃ u, u ∉ acc ∧
        (if (jsSplitFirst (unescapeSlashes (removeChar '\x22' m)) '?' ≠ "" &&
             !jsIncludes acc (jsSplitFirst (unescapeSlashes (removeChar '\x22' m)) '?') &&
             !strIncludes (jsSplitFirst (unescapeSlashes (removeChar '\x22' m)) '?') "avatar" &&
             !strIncludes (jsSplitFirst (unescapeSlashes (removeChar '\x22' m)) '?') ".js")
         then acc ++ [jsSplitFirst (unescapeSlashes (removeChar '\x22' m)) '?'] else acc) =
          acc ++ [u] := by
  intro acc m
  by_cases h : (jsSplitFirst (unescapeSlashes (removeChar '\x22' m)) '?' ≠ "" &&
      !jsIncludes acc (jsSplitFirst (unescapeSlashes (removeChar '\x22' m)) '?') &&
      !strIncludes (jsSplitFirst (unescapeSlashes (removeChar '\x22' m)) '?') "avatar" &&
      !strIncludes (jsSplitFirst (unescapeSlashes (removeChar '\x22' m)) '?') ".js") = true
  · rw [if_pos h]
    refine Or.inr ⟨jsSplitFirst (unescapeSlashes (removeChar '\x22' m)) '?', ?_, rfl⟩
    have h2 := ((Bool.and_eq_true _ _).mp (((Bool.and_eq_true _ _).mp
      (((Bool.and_eq_true _ _).mp h).1)).1)).2
    simpa [jsIncludes] using h2
  · rw [if_neg h]; exact Or.inl rfl

/-! ### Claim theorems: media caps and deduplication -/

/-- C3, counterexample: the claimed "at most 20 images without
duplicates for every strategy" fails on the twitter and zhihu article
strategies — a page with 21 image elements carrying the same source
yields 21 identical entries in the extracted images list. -/
theorem media_images_uncapped_cex :
    (twitterImages (List.replicate 21 (some "u"))).length = 21 ∧
    ¬ (twitterImages (List.replicate 21 (some "u"))).Nodup ∧
    (zhihuArticleImages (List.replicate 21 (some "u", none))).length = 21 ∧
    ¬ (zhihuArticleImages (List.replicate 21 (some "u", none))).Nodup := by
  decide

/-- C3, amended: every strategy's final videos list is duplicate-free
and capped at 10 entries. Image handling varies by strategy: the
xiaohongshu images are duplicate-free and capped at 20, the generic
strategy caps at 20 without deduplicating, the wechat strategy
deduplicates without a cap, and the zhihu and twitter image lists are
neither capped nor deduplicated. -/
theorem media_lists_caps_amended :
    (∀ a b, (zhihuVideos a b).length ≤ 10 ∧ (zhihuVideos a b).Nodup) ∧
    (∀ a b c, (twitterVideos a b c).length ≤ 10 ∧ (twitterVideos a b c).Nodup) ∧
    (∀ a b c d e, (wechatVideos a b c d e).length ≤ 10 ∧ (wechatVideos a b c d e).Nodup) ∧
    (∀ a b c, (xhsVideos a b c).length ≤ 10 ∧ (xhsVideos a b c).Nodup) ∧
    (∀ a b c, (genericVideos a b c).length ≤ 10 ∧ (genericVideos a b c).Nodup) ∧
    (∀ a b, (xhsImages a b).length ≤ 20 ∧ (xhsImages a b).Nodup) ∧
    (∀ a, (genericImages a).length ≤ 20) ∧
    (∀ a, (wechatImages a).Nodup) := by
  refine ⟨?_, ?_, ?_, ?_, ?_, ?_, ?_, ?_⟩
  · intro a b
    unfold zhihuVideos
    exact ⟨List.length_take_le _ _,
      List.Nodup.sublist (List.take_sublist _ _) (jsSetDedup_nodup _)⟩
  · intro a b c
    unfold twitterVideos
    refine ⟨List.length_take_le _ _,
      List.Nodup.sublist (List.take_sublist _ _) ?_⟩
    exact nodup_foldl_of_step _ (pushIf_step twitterValidVideo unescapeSlashes) c _
      (nodup_foldl_of_step _ (pushIf_step twitterValidVideo id) b _
        (nodup_foldl_of_step _ (pushIf_step twitterValidVideo id) a [] List.nodup_nil))
  · intro a b c d e
    unfold wechatVideos
    refine ⟨List.length_take_le _ _,
      List.Nodup.sublist (List.take_sublist _ _) ?_⟩
    exact nodup_foldl_of_step _ (pushIf_step strTruthy unescapeSlashes) e _
      (nodup_foldl_of_step _ (pushIf_step strTruthy id) d _
        (nodup_foldl_of_step _ (pushIf_step wechatIframeCond id) c _
          (nodup_foldl_of_step _ (pushIf_step strTruthy id) b _
            (nodup_foldl_of_step _ (pushIf_step strTruthy id) a [] List.nodup_nil))))
  · intro a b c
    unfold xhsVideos
    refine ⟨List.length_take_le _ _,
      List.Nodup.sublist (List.take_sublist _ _) ?_⟩
    refine nodup_foldl_of_step _ ?_ c _
      (nodup_foldl_of_step _ (pushIf_step xhsValidVideo id) b _
        (nodup_foldl_of_step _ (pushIf_step xhsValidVideo id) a [] List.nodup_nil))
    intro acc m
    exact pushIf_step xhsValidVideo
      (fun m => if strStartsWith (unescapeSlashes m) "//"
        then "https:" ++ unescapeSlashes m else unescapeSlashes m) acc m
  · intro a b c
    unfold genericVideos
    refine ⟨List.length_take_le _ _,
      List.Nodup.sublist (List.take_sublist _ _) ?_⟩
    exact nodup_foldl_of_step _ (pushIf_step strTruthy unescapeSlashes) c _
      (nodup_foldl_of_step _ (pushIf_step strTruthy id) b _
        (nodup_foldl_of_step _ (pushIf_step strTruthy id) a [] List.nodup_nil))
  · intro a b
    unfold xhsImages
    refine ⟨List.length_take_le _ _,
      List.Nodup.sublist (List.take_sublist _ _) ?_⟩
    exact nodup_foldl_of_step _ xhsImages_step2 b _
      (nodup_foldl_of_step _ xhsImages_step1 a [] List.nodup_nil)
  · intro a
    unfold genericImages
    exact List.length_take_le _ _
  · intro a
    unfold wechatImages
    exact jsSetDedup_nodup _

/-! ### Claim theorems: cookie normalizer -/

/-- C4, counterexample: the claim that entries with empty name or value
are dropped in both input forms fails for the list form — a structured
cookie with empty name and value passes through untouched (only its
domain is filled in). -/
theorem parseCookies_list_form_cex :
    parseCookies (some (.arr [{ name := "", value := "" }])) "d" =
      [{ name := "", value := "", domain := some "d" }] ∧
    ((parseCookies (some (.arr [{ name := "", value := "" }])) "d").all
      (fun c => c.name != "" && c.value != "")) = false := by
  decide

/-- C4, amended: in the string form every produced entry has a
non-empty name and a non-empty value (violating fragments are dropped
silently) and carries the fallback domain; the list form performs no
filtering — it keeps every entry, preserving name, value and path, and
only fills missing or empty domains with the fallback; absent input
yields the empty list. -/
theorem parseCookies_amended (s d : String) (l : List CookieParam) :
    ((parseCookies (some (.str s)) d).all
      (fun c => c.name != "" && c.value != "" && c.domain == some d)) = true ∧
    (parseCookies (some (.arr l)) d).length = l.length ∧
    ((parseCookies (some (.arr l)) d).map (fun c => (c.name, c.value, c.path))) =
      (l.map (fun c => (c.name, c.value, c.path))) ∧
    ((parseCookies (some (.arr l)) d).map (fun c => c.domain)) =
      (l.map (fun c => some (jsOrDomain c.domain d))) ∧
    parseCookies none d = [] := by
  refine ⟨?_, ?_, ?_, ?_, rfl⟩
  · rw [List.all_eq_true]
    intro c hc
    unfold parseCookies at hc
    rw [List.mem_filter] at hc
    obtain ⟨hmem, hp⟩ := hc
    rw [List.mem_map] at hmem
    obtain ⟨pair, _, hpair⟩ := hmem
    have hd : c.domain = some d := by rw [← hpair]
    simp only [Bool.and_eq_true, decide_eq_true_eq] at hp
    simp [bne, hp.1, hp.2, hd]
  · simp [parseCookies]
  · simp [parseCookies, List.map_map]
  · simp [parseCookies, List.map_map]

/-- C5: string-form cookie parsing splits on `;`, trims, separates at
the first `=` only, attaches the fallback domain and drops empty
fragments: the spec's example, the plain `a=1; b=2` form, the
`a=b=c` case and absent input all behave as stated. -/
theorem parseCookies_string_form_examples (d : String) :
    parseCookies (some (.str " foo = bar ; baz=qux=1 ")) ".example.com" =
      [{ name := "foo", value := "bar", domain := some ".example.com" },
       { name := "baz", value := "qux=1", domain := some ".example.com" }] ∧
    parseCookies (some (.str "a=1; b=2")) d =
      [{ name := "a", value := "1", domain := some d },
       { name := "b", value := "2", domain := some d }] ∧
    parseCookies (some (.str "a=b=c")) d =
      [{ name := "a", value := "b=c", domain := some d }] ∧
    parseCookies none d = [] := by
  exact ⟨by decide, rfl, rfl, rfl⟩

/-! ### Generic content selection lemmas -/

/-- Characterization of the selector loop: when some selector's text
exceeds 100 characters the loop returns the first such text, otherwise
it returns the last successfully extracted text, defaulting to the
accumulator. -/
theorem selectLoop_eq_spec (q : String → Option String) :
    ∀ (sels : List String) (c : String),
      selectLoop q sels c =
        (match sels.find? (fun s => match q s with
          | some t => decide (100 < t.length)
          | none => false) with
        | some s => (q s).getD ""
        | none => (sels.filterMap q).getLastD c) := by
  intro sels
  induction sels with
  | nil => intro c; simp [selectLoop]
  | cons s ss ih =>
    intro c
    cases hq : q s with
    | none =>
      simp only [selectLoop, hq, List.find?_cons, List.filterMap_cons]
      exact ih c
    | some t =>
      by_cases h100 : 100 < t.length
      · simp [selectLoop, hq, List.find?_cons, h100]
      · simp only [selectLoop, hq, List.find?_cons, List.filterMap_cons,
          if_neg h100, decide_eq_false h100, List.getLastD_cons]
        exact ih t

/-- Truncation to `n` characters bounds the length by `n`. -/
theorem jsTake_length_le (s : String) (n : Nat) : (jsTake s n).length ≤ n := by
  show ((s.data.take n).asString).length ≤ n
  have h : ((s.data.take n).asString).length = (s.data.take n).length := rfl
  rw [h]
  exact List.length_take_le _ _

/-! ### Claim theorems: generic fallback content -/

/-- Page observation refuting the claimed body fallback: only the
`article` selector succeeds and its text is short. -/
def qShortArticle : String → Option String :=
  fun s => if s = "article" then some "short" else none

/-- C6, counterexample: the claim that the generic strategy falls back
to the full page body whenever no selector's text exceeds 100
characters fails — with a single successful selector returning a
5-character text, the loop keeps that text (no selector exceeded 100)
and the body is never consulted. -/
theorem generic_body_fallback_cex :
    genericSelectContent qShortArticle = "short" ∧
    ¬ 100 < ("short" : String).length ∧
    genericContentBase qShortArticle "THEBODY" = "short" ∧
    genericContentField qShortArticle "THEBODY" = "short" ∧
    ("short" : String) ≠ "THEBODY" := by
  refine ⟨by decide, by decide, by decide, ?_, by decide⟩
  decide

/-- C6, amended: the generic strategy tries the fixed selector list in
order and accepts the first text exceeding 100 characters; when no
text exceeds the threshold it keeps the last successfully extracted
text, and it falls back to the full page body exactly when that kept
text is empty; the resulting content field is truncated to at most
10000 characters. -/
theorem generic_content_selection_amended (q : String → Option String) (body : String) :
    genericSelectContent q = selectSpec q contentSelectors ∧
    genericContentBase q body =
      (if genericSelectContent q = "" then body else genericSelectContent q) ∧
    (genericContentField q body).length ≤ 10000 := by
  refine ⟨?_, rfl, ?_⟩
  · unfold genericSelectContent selectSpec
    exact selectLoop_eq_spec q contentSelectors ""
  · exact jsTake_length_le _ _

/-! ### Text normalizer lemmas -/

/-- Head character, when present, is not whitespace. -/
def headNotSpace : List Char → Bool
  | [] => true
  | d :: _ => !jsIsSpace d

/-- Characterization of collapsed text: every whitespace character is a
single space that is not followed by further whitespace. -/
def collapsedB : List Char → Bool
  | [] => true
  | c :: rest => (!jsIsSpace c || (c = ' ' && headNotSpace rest)) && collapsedB rest

/-- Inside a run, the collapser emits output starting with a
non-whitespace character. -/
theorem headNotSpace_collapseAux (l : List Char) :
    headNotSpace (collapseAux true l) = true := by
  induction l with
  | nil => rfl
  | cons c cs ih =>
    by_cases h : jsIsSpace c = true
    · simpa [collapseAux, h] using ih
    · simp [collapseAux, h, headNotSpace]

/-- Output of the whitespace collapser is collapsed. -/
theorem collapsedB_collapseAux (l : List Char) :
    ∀ b, collapsedB (collapseAux b l) = true := by
  induction l with
  | nil => intro b; rfl
  | cons c cs ih =>
    intro b
    by_cases h : jsIsSpace c = true
    · cases b with
      | true => simpa [collapseAux, h] using ih true
      | false =>
        simp [collapseAux, h, collapsedB, headNotSpace_collapseAux, ih true,
          show jsIsSpace ' ' = true from rfl]
    · simp [collapseAux, h, collapsedB, ih false]

/-- The collapser leaves collapsed text unchanged. -/
theorem collapseAux_id (l : List Char) (h : collapsedB l = true) :
    collapseAux false l = l ∧ (headNotSpace l = true → collapseAux true l = l) := by
  induction l with
  | nil => exact ⟨rfl, fun _ => rfl⟩
  | cons c cs ih =>
    rw [collapsedB, Bool.and_eq_true] at h
    obtain ⟨hA, hB⟩ := h
    obtain ⟨ihF, ihT⟩ := ih hB
    constructor
    · by_cases hws : jsIsSpace c = true
      · rw [Bool.or_eq_true] at hA
        rcases hA with hA | hA
        · simp [hws] at hA
        · rw [Bool.and_eq_true, decide_eq_true_eq] at hA
          obtain ⟨hc, hns⟩ := hA
          subst hc
          simp [collapseAux, hws, ihT hns]
      · simp [collapseAux, hws, ihF]
    · intro hn
      rw [headNotSpace] at hn
      have hws : jsIsSpace c = false := by
        cases hcs : jsIsSpace c
        · rfl
        · rw [hcs] at hn; simp at hn
      simp [collapseAux, hws, ihF]

/-- Every whitespace character the collapser emits is a plain space. -/
theorem collapseAux_mem_space (l : List Char) :
    ∀ b c, c ∈ collapseAux b l → jsIsSpace c = true → c = ' ' := by
  induction l with
  | nil => intro b c hc; simp [collapseAux] at hc
  | cons d ds ih =>
    intro b c hc hs
    by_cases h : jsIsSpace d = true
    · cases b with
      | true =>
        rw [collapseAux, if_pos h] at hc
        exact ih true c hc hs
      | false =>
        rw [collapseAux, if_pos h] at hc
        rcases List.mem_cons.mp hc with hc | hc
        · exact hc
        · exact ih true c hc hs
    · rw [collapseAux, if_neg h] at hc
      rcases List.mem_cons.mp hc with hc | hc
      · rw [hc] at hs; rw [hs] at h; exact absurd rfl h
      · exact ih false c hc hs

/-- Newline-free lists pass through the blank-line substitution
unchanged. -/
theorem rmBlankGo_id (l : List Char) :
    ∀ fuel, '\n' ∉ l → l.length ≤ fuel → rmBlankGo fuel l = l := by
  induction l with
  | nil => intro fuel _ _; cases fuel <;> rfl
  | cons c cs ih =>
    intro fuel hn hlen
    cases fuel with
    | zero => simp at hlen
    | succ f =>
      have hc : ¬ c = '\n' := fun h => hn (h ▸ List.mem_cons_self c cs)
      rw [rmBlankGo, if_neg hc]
      have := ih f (fun h => hn (List.mem_cons_of_mem _ h)) (Nat.le_of_succ_le_succ hlen)
      rw [this]

/-- Newline-free lists are fixed points of `rmBlank`. -/
theorem rmBlank_id (l : List Char) (hn : '\n' ∉ l) : rmBlank l = l :=
  rmBlankGo_id l l.length hn (Nat.le_refl _)

/-- After dropping a whitespace prefix, the remainder is empty or
starts with a non-whitespace character. -/
theorem dropWhile_space_cases (l : List Char) :
    l.dropWhile jsIsSpace = [] ∨
    ∃ h t, l.dropWhile jsIsSpace = h :: t ∧ jsIsSpace h = false := by
  induction l with
  | nil => exact Or.inl rfl
  | cons c cs ih =>
    by_cases h : jsIsSpace c = true
    · rw [List.dropWhile_cons, if_pos h]; exact ih
    · rw [List.dropWhile_cons, if_neg (by simpa using h)]
      exact Or.inr ⟨c, cs, rfl, by simpa using h⟩

/-- Collapsedness is inherited by prefixes. -/
theorem collapsedB_append_left (l1 : List Char) :
    ∀ l2, collapsedB (l1 ++ l2) = true → collapsedB l1 = true := by
  induction l1 with
  | nil => intro l2 _; rfl
  | cons c cs ih =>
    intro l2 h
    rw [List.cons_append, collapsedB, Bool.and_eq_true] at h
    obtain ⟨hA, hB⟩ := h
    rw [collapsedB, Bool.and_eq_true]
    refine ⟨?_, ih l2 hB⟩
    rw [Bool.or_eq_true] at hA ⊢
    rcases hA with hA | hA
    · exact Or.inl hA
    · rw [Bool.and_eq_true] at hA
      obtain ⟨hc, hns⟩ := hA
      refine Or.inr ?_
      rw [Bool.and_eq_true]
      refine ⟨hc, ?_⟩
      cases cs with
      | nil => rfl
      | cons d ds => simpa [headNotSpace] using hns

/-- Collapsedness survives dropping a prefix with `dropWhile`. -/
theorem collapsedB_dropWhile (p : Char → Bool) (l : List Char) :
    collapsedB l = true → collapsedB (l.dropWhile p) = true := by
  induction l with
  | nil => intro _; rfl
  | cons c cs ih =>
    intro h
    rw [collapsedB, Bool.and_eq_true] at h
    by_cases hp : p c = true
    · rw [List.dropWhile_cons, if_pos hp]
      exact ih h.2
    · rw [List.dropWhile_cons, if_neg (by simpa using hp)]
      rw [collapsedB, Bool.and_eq_true]
      exact h

/-- Properties of trimming collapsed text: the result is collapsed,
has no whitespace at either edge, and is made of characters of the
input. -/
theorem jsTrimL_spec (l : List Char) (h : collapsedB l = true) :
    collapsedB (jsTrimL l) = true ∧ headNotSpace (jsTrimL l) = true ∧
    headNotSpace (jsTrimL l).reverse = true ∧ ∀ c ∈ jsTrimL l, c ∈ l := by
  have hy : collapsedB (l.dropWhile jsIsSpace) = true := collapsedB_dropWhile _ l h
  have hdecomp :
      l.dropWhile jsIsSpace =
        ((l.dropWhile jsIsSpace).reverse.dropWhile jsIsSpace).reverse ++
          ((l.dropWhile jsIsSpace).reverse.takeWhile jsIsSpace).reverse := by
    have hsplit := List.takeWhile_append_dropWhile (p := jsIsSpace)
      (l := (l.dropWhile jsIsSpace).reverse)
    calc l.dropWhile jsIsSpace = (l.dropWhile jsIsSpace).reverse.reverse := by
          rw [List.reverse_reverse]
      _ = (((l.dropWhile jsIsSpace).reverse.takeWhile jsIsSpace) ++
            ((l.dropWhile jsIsSpace).reverse.dropWhile jsIsSpace)).reverse := by rw [hsplit]
      _ = _ := by rw [List.reverse_append]
  refine ⟨?_, ?_, ?_, ?_⟩
  · exact collapsedB_append_left _ _ (hdecomp ▸ hy)
  · rcases dropWhile_space_cases l with hnil | ⟨hh, ht, hyeq, hws⟩
    · unfold jsTrimL
      rw [hnil]
      rfl
    · show headNotSpace ((l.dropWhile jsIsSpace).reverse.dropWhile jsIsSpace).reverse = true
      cases hz : ((l.dropWhile jsIsSpace).reverse.dropWhile jsIsSpace).reverse with
      | nil => rfl
      | cons c0 zr =>
        have : c0 :: (zr ++ ((l.dropWhile jsIsSpace).reverse.takeWhile jsIsSpace).reverse) =
            hh :: ht := by
          rw [← List.cons_append, ← hz, ← hdecomp, hyeq]
        have hc0 : c0 = hh := (List.cons_eq_cons.mp this).1
        simp [headNotSpace, hc0, hws]
  · show headNotSpace ((l.dropWhile jsIsSpace).reverse.dropWhile jsIsSpace).reverse.reverse = true
    rw [List.reverse_reverse]
    rcases dropWhile_space_cases (l.dropWhile jsIsSpace).reverse with hnil | ⟨hh, ht, hyeq, hws⟩
    · rw [hnil]; rfl
    · rw [hyeq]; simp [headNotSpace, hws]
  · intro c hc
    have hc1 : c ∈ (l.dropWhile jsIsSpace).reverse.dropWhile jsIsSpace := by
      rw [← List.mem_reverse]; exact hc
    have hc2 : c ∈ (l.dropWhile jsIsSpace).reverse := by
      have hsplit := List.takeWhile_append_dropWhile (p := jsIsSpace)
        (l := (l.dropWhile jsIsSpace).reverse)
      rw [← hsplit]
      exact List.mem_append_right _ hc1
    have hc3 : c ∈ l.dropWhile jsIsSpace := List.mem_reverse.mp hc2
    have hsplit2 := List.takeWhile_append_dropWhile (p := jsIsSpace) (l := l)
    rw [← hsplit2]
    exact List.mem_append_right _ hc3

/-- Trimming is the identity on lists without whitespace at either
edge. -/
theorem jsTrimL_id (t : List Char) (h1 : headNotSpace t = true)
    (h2 : headNotSpace t.reverse = true) : jsTrimL t = t := by
  have hd1 : t.dropWhile jsIsSpace = t := by
    cases t with
    | nil => rfl
    | cons c cs =>
      rw [headNotSpace] at h1
      have hws : jsIsSpace c = false := by
        cases hcs : jsIsSpace c
        · rfl
        · rw [hcs] at h1; simp at h1
      rw [List.dropWhile_cons, hws]
      rfl
  have hd2 : t.reverse.dropWhile jsIsSpace = t.reverse := by
    cases ht : t.reverse with
    | nil => rfl
    | cons c cs =>
      rw [ht] at h2
      rw [headNotSpace] at h2
      have hws : jsIsSpace c = false := by
        cases hcs : jsIsSpace c
        · rfl
        · rw [hcs] at h2; simp at h2
      rw [List.dropWhile_cons, hws]
      rfl
  unfold jsTrimL
  rw [hd1, hd2, List.reverse_reverse]

/-- Strings produced by `cleanText` contain no newline. -/
theorem cleanText_data_mem_space (s : String) :
    ∀ c ∈ (cleanText s).data, jsIsSpace c = true → c = ' ' := by
  intro c hc hs
  have hX : collapsedB (collapseWS s.data) = true := collapsedB_collapseAux _ false
  have hnX : '\n' ∉ collapseWS s.data := by
    intro hmem
    have := collapseAux_mem_space s.data false '\n' hmem (by decide)
    exact absurd this (by decide)
  have hrm : rmBlank (collapseWS s.data) = collapseWS s.data := rmBlank_id _ hnX
  have hdata : (cleanText s).data = jsTrimL (collapseWS s.data) := by
    show (jsTrimL (rmBlank (collapseWS s.data))).asString.data = _
    rw [hrm]
    rfl
  rw [hdata] at hc
  have hsub := (jsTrimL_spec (collapseWS s.data) hX).2.2.2
  exact collapseAux_mem_space s.data false c (hsub c hc) hs

/-! ### Claim theorems: text normalizer -/

/-- C10: the output of `cleanText` contains no newline character — the
first substitution replaces every whitespace run, newlines included,
with a single space, so the blank-line substitution can never match:
it is the identity on the collapsed text. -/
theorem cleanText_no_newline (s : String) :
    '\n' ∉ (cleanText s).data ∧
    rmBlank (collapseWS s.data) = collapseWS s.data := by
  have hnX : '\n' ∉ collapseWS s.data := by
    intro hmem
    have := collapseAux_mem_space s.data false '\n' hmem (by decide)
    exact absurd this (by decide)
  refine ⟨?_, rmBlank_id _ hnX⟩
  intro hmem
  have := cleanText_data_mem_space s '\n' hmem (by decide)
  exact absurd this (by decide)

/-- C7: `cleanText` is idempotent, and its output is collapsed — every
whitespace run of the input is reduced to a single space, so no
whitespace run (in particular no blank line) survives in the output. -/
theorem cleanText_idempotent (s : String) :
    cleanText (cleanText s) = cleanText s ∧ collapsedB (cleanText s).data = true := by
  have hX : collapsedB (collapseWS s.data) = true := collapsedB_collapseAux _ false
  have hnX : '\n' ∉ collapseWS s.data := by
    intro hmem
    have := collapseAux_mem_space s.data false '\n' hmem (by decide)
    exact absurd this (by decide)
  have hrm : rmBlank (collapseWS s.data) = collapseWS s.data := rmBlank_id _ hnX
  obtain ⟨ht_coll, ht_head, ht_rev, ht_sub⟩ := jsTrimL_spec (collapseWS s.data) hX
  have hdata : (cleanText s).data = jsTrimL (collapseWS s.data) := by
    show (jsTrimL (rmBlank (collapseWS s.data))).asString.data = _
    rw [hrm]
    rfl
  refine ⟨?_, by rw [hdata]; exact ht_coll⟩
  have hcoll2 : collapseWS (cleanText s).data = (cleanText s).data := by
    rw [hdata]
    exact (collapseAux_id _ ht_coll).1
  have hn2 : '\n' ∉ (cleanText s).data := by
    intro hmem
    have := cleanText_data_mem_space s '\n' hmem (by decide)
    exact absurd this (by decide)
  have hrm2 : rmBlank (collapseWS (cleanText s).data) = collapseWS (cleanText s).data := by
    rw [hcoll2]
    exact rmBlank_id _ hn2
  show (jsTrimL (rmBlank (collapseWS (cleanText s).data))).asString = cleanText s
  rw [hrm2, hcoll2, hdata, jsTrimL_id _ ht_head ht_rev, ← hdata]
  cases hs : cleanText s
  rfl

/-! ### Substring lemmas and the platform classifier -/

/-- Characterization of `beginsWith`. -/
theorem beginsWith_iff (p : List Char) :
    ∀ l, beginsWith l p = true ↔ ∃ rest, l = p ++ rest := by
  induction p with
  | nil =>
    intro l
    constructor
    · intro _; exact ⟨l, rfl⟩
    · intro _; cases l <;> rfl
  | cons x xs ih =>
    intro l
    cases l with
    | nil =>
      constructor
      · intro h; simp [beginsWith] at h
      · rintro ⟨rest, hr⟩; simp at hr
    | cons c cs =>
      rw [beginsWith, Bool.and_eq_true, decide_eq_true_eq, ih cs]
      constructor
      · rintro ⟨hc, rest, hr⟩; exact ⟨rest, by rw [hc, hr]; rfl⟩
      · rintro ⟨rest, hr⟩
        rw [List.cons_append, List.cons_eq_cons] at hr
        exact ⟨hr.1, rest, hr.2⟩

/-- Characterization of `containsSub`. -/
theorem containsSub_iff (pat : List Char) :
    ∀ l, containsSub l pat = true ↔ ∃ pre post, l = pre ++ (pat ++ post) := by
  intro l
  induction l with
  | nil =>
    rw [containsSub, beginsWith_iff]
    constructor
    · rintro ⟨rest, hr⟩; exact ⟨[], rest, by simpa using hr⟩
    · rintro ⟨pre, post, hp⟩
      rcases List.append_eq_nil.mp hp.symm with ⟨h1, h2⟩
      exact ⟨post, by rw [h2]⟩
  | cons c cs ih =>
    rw [containsSub, Bool.or_eq_true]
    constructor
    · rintro (h | h)
      · obtain ⟨rest, hr⟩ := (beginsWith_iff pat (c :: cs)).mp h
        exact ⟨[], rest, by simpa using hr⟩
      · obtain ⟨pre, post, hp⟩ := ih.mp h
        exact ⟨c :: pre, post, by rw [hp]; rfl⟩
    · rintro ⟨pre, post, hp⟩
      cases pre with
      | nil =>
        exact Or.inl ((beginsWith_iff pat (c :: cs)).mpr ⟨post, by simpa using hp⟩)
      | cons p ps =>
        rw [List.cons_append, List.cons_eq_cons] at hp
        exact Or.inr (ih.mpr ⟨ps, post, hp.2⟩)

/-- Any host containing the longer wechat signature also contains the
shorter one. -/
theorem strIncludes_weixin (h : String)
    (hm : strIncludes h "mp.weixin.qq.com" = true) :
    strIncludes h "weixin.qq.com" = true := by
  unfold strIncludes at hm ⊢
  obtain ⟨pre, post, hp⟩ := (containsSub_iff _ _).mp hm
  apply (containsSub_iff _ _).mpr
  have hsplit : ("mp.weixin.qq.com" : String).data =
      ("mp." : String).data ++ ("weixin.qq.com" : String).data := by decide
  refine ⟨pre ++ ("mp." : String).data, post, ?_⟩
  rw [hp, hsplit]
  simp [List.append_assoc]

/-! ### Claim theorems: platform classifier -/

/-- C8: the platform classifier lowercases the host and matches it by
substring against the fixed ordered signature list, first match
winning, yielding `unknown` when nothing matches — it agrees with the
classifier transcribed from the specification's signature list on every
host (the code's extra `mp.weixin.qq.com` disjunct is subsumed by
`weixin.qq.com`); as a pure function it is deterministic and free of
side effects. -/
theorem detectPlatform_matches_claim (host : String) :
    detectPlatformHost host = claimPlatformSpec host := by
  simp only [detectPlatformHost, claimPlatformSpec]
  have hw : (strIncludes (strToLower host) "weixin.qq.com" ||
      strIncludes (strToLower host) "mp.weixin.qq.com") =
      strIncludes (strToLower host) "weixin.qq.com" := by
    cases he : strIncludes (strToLower host) "mp.weixin.qq.com" with
    | true => rw [strIncludes_weixin _ he]; rfl
    | false => rw [Bool.or_false]
  rw [hw]

end Crawler
